import Mathlib

/-!
Shallow embedding of the robot-cleaner program (`src/main.cpp`).

The program simulates a cleaning robot on a rectangular character grid
(`'.'` open, anything else blocked).  The robot peeks at the cell one step
ahead, then moves (Empty), probes one step into already-visited territory
(Visited), or rotates in place (Blocked); it stops after a second
consecutive Visited step or after four consecutive Blocked results.
`run()` returns the length of the pose history at termination.

Machine integers (`int`, `size_t`) are modelled as `Int`/`Nat`: all
quantities involved (grid coordinates, counters, list lengths) stay far
below any overflow boundary for the grids considered.  The C++ `do/while`
loop of `Robot::run` is modelled by a fuel-indexed iteration `Robot.loop`;
`Robot.run` supplies a fuel bound derived from the map dimensions which the
termination development below proves sufficient.
-/

/-- Embedding of `struct Position { int x, y; }` with structural equality (`operator==`). -/
structure Position where
  x : Int
  y : Int
deriving DecidableEq, Repr

/-- The direction variant `std::variant<R, D, L, U>`. -/
inductive Direction where
  | R
  | D
  | L
  | U
deriving DecidableEq, Repr, Fintype

/-- Embedding of `operator+(Position, Direction)`: one unit step in the heading
(R: x+1, D: y+1, L: x-1, U: y-1, matching the `Dir<D>::value` increments). -/
def Position.add (p : Position) (d : Direction) : Position :=
  match d with
  | .R => ⟨p.x + 1, p.y⟩
  | .D => ⟨p.x, p.y + 1⟩
  | .L => ⟨p.x - 1, p.y⟩
  | .U => ⟨p.x, p.y - 1⟩

/-- The cell variant `std::variant<Empty, Visited, Blocked>`; `Empty` and
`Visited` carry the queried position (`Empty::pos`, `Visited::pos`). -/
inductive Cell where
  | Empty (pos : Position)
  | Visited (pos : Position)
  | Blocked
deriving DecidableEq, Repr

/-- Embedding of `struct Pose { Position p; Direction d; }`. -/
structure Pose where
  p : Position
  d : Direction
deriving DecidableEq, Repr

/-- Embedding of `Pose::rotate`: same position, heading advanced R→D→L→U→R. -/
def Pose.rotate (pose : Pose) : Pose :=
  ⟨pose.p, match pose.d with
           | .R => .D
           | .D => .L
           | .L => .U
           | .U => .R⟩

/-- Embedding of `Pose::advance`: position one step ahead in the current heading. -/
def Pose.advance (pose : Pose) : Pose :=
  ⟨pose.p.add pose.d, pose.d⟩

/-- Embedding of `class Map`: the immutable grid plus the visited history.  `grid` rows are
lists of characters (`Map::Layout`), `w`/`h` the cached dimensions, `visited`
the `Positions` vector. -/
structure Map where
  grid : List (List Char)
  w : Int
  h : Int
  visited : List Position
deriving DecidableEq, Repr

/-- The layout type `Map::Layout = std::vector<std::string>`. -/
abbrev Layout := List (List Char)

/-- Embedding of the constructor `Map::Map(Layout g)`: sets `w` from the length of the FIRST row, `h` from
the row count, and seeds `visited` with `Position{}`, i.e. `(0,0)`.  The C++
constructor reads `grid.front()`, which is undefined on an empty layout; that
one case is modelled as `none`.  No other validation is performed. -/
def Map.ofLayout : Layout → Option Map
  | [] => none
  | r :: rs => some ⟨r :: rs, (r.length : Int), ((r :: rs).length : Int), [⟨0, 0⟩]⟩

/-- Embedding of `Map::get_empty`: `some (Empty p)` iff `p` is in bounds and the grid
character there is `'.'`; otherwise `none`.  (For a ragged grid the C++ row
indexing would be undefined; `getD` with a non-`'.'` default keeps such reads
"not open", which no in-scope claim depends on.) -/
def Map.get_empty (m : Map) (p : Position) : Option Cell :=
  if p.x < m.w ∧ 0 ≤ p.x ∧ p.y < m.h ∧ 0 ≤ p.y then
    if ((m.grid.getD p.y.toNat []).getD p.x.toNat ' ') = '.' then
      some (.Empty p)
    else none
  else none

/-- Embedding of `Map::find_visited`: `some (Visited p)` iff `p` occurs in the visited
history (`std::find` linear scan), else `none`. -/
def Map.find_visited (m : Map) (p : Position) : Option Cell :=
  if p ∈ m.visited then some (.Visited p) else none

/-- Embedding of `Map::operator()`: `find_visited(p).value_or(get_empty(p).value_or(Blocked))` —
the visited check takes precedence over openness. -/
def Map.classify (m : Map) (p : Position) : Cell :=
  (m.find_visited p).getD ((m.get_empty p).getD .Blocked)

/-- Embedding of `Map::mark_visited`: push the position onto the visited history. -/
def Map.mark_visited (m : Map) (p : Position) : Map :=
  { m with visited := m.visited ++ [p] }

/-- Embedding of `Map::count_visited`: length of the visited history. -/
def Map.count_visited (m : Map) : Nat :=
  m.visited.length

/-- Whether a position is an open cell of the map: in bounds and `'.'`.
This is the "openAt" query of the spec (`get_empty` succeeding). -/
def Map.openAt (m : Map) (p : Position) : Bool :=
  (m.get_empty p).isSome

/-- The robot state machine result `Robot::State = std::variant<Stopped, Running>`. -/
inductive Robot.State where
  | Stopped
  | Running (pose : Pose)
deriving DecidableEq, Repr

/-- Embedding of `class Robot`: the map it mutates, the `just_visited` flag, the
consecutive-blocked counter `nblocked`, and the pose history `poses`. -/
structure Robot where
  map : Map
  just_visited : Bool
  nblocked : Nat
  poses : List Pose
deriving DecidableEq, Repr

/-- Embedding of the constructor `Robot::Robot(Map&, Pose)`: flag and counter zeroed, history seeded with
the starting pose. -/
def Robot.make (m : Map) (pose : Pose) : Robot :=
  ⟨m, false, 0, [pose]⟩

/-- Embedding of `Robot::peek`: classify the cell one step ahead of the given pose. -/
def Robot.peek (r : Robot) (pose : Pose) : Cell :=
  r.map.classify (pose.advance).p

/-- Embedding of `Robot::move_to`: the per-cell transition.  Empty: move, record, clear the
flag, reset the counter.  Visited: stop if the flag is set, else move without
recording and set the flag.  Blocked: rotate in place, bump the counter, stop
when it reaches 4 (`DirectionCount`). -/
def Robot.move_to (r : Robot) (cell : Cell) (p : Pose) : Robot × Robot.State :=
  match cell with
  | .Empty e =>
      let pose : Pose := ⟨e, p.d⟩
      ({ r with just_visited := false
                nblocked := 0
                map := r.map.mark_visited pose.p
                poses := r.poses ++ [pose] },
       .Running pose)
  | .Visited v =>
      if r.just_visited then (r, .Stopped)
      else ({ r with just_visited := true, nblocked := 0 }, .Running ⟨v, p.d⟩)
  | .Blocked =>
      let nb := r.nblocked + 1
      if nb = 4 then ({ r with nblocked := nb }, .Stopped)
      else ({ r with nblocked := nb }, .Running p.rotate)

/-- One fuel-indexed unfolding of the `do { ... } while(true)` loop of
`Robot::run`; returns the robot state at `Stopped`, or `none` if the fuel runs
out first. -/
def Robot.loop : Nat → Robot → Pose → Option Robot
  | 0, _, _ => none
  | n + 1, r, pose =>
      match r.move_to (r.peek pose) pose with
      | (r', .Stopped) => some r'
      | (r', .Running pose') => Robot.loop n r' pose'

/-- Fuel bound supplied to `Robot.loop` by `Robot.run`; the termination
development proves it exceeds the loop's decreasing measure. -/
def Robot.fuel (r : Robot) : Nat :=
  10 * (r.map.w.toNat * r.map.h.toNat + 2) + 10

/-- Embedding of `Robot::run`: iterate from the front of the pose history until `Stopped`,
then return the length of the pose history (`poses.size()`). -/
def Robot.run (r : Robot) : Option Nat :=
  match r.poses with
  | [] => none
  | pose :: _ => (Robot.loop (Robot.fuel r) r pose).map (fun r' => r'.poses.length)

/-!
## Basic lemmas about classification
-/

/-- The query `get_empty` can only ever return `Empty p` at the queried position `p`. -/
theorem Map.get_empty_eq_of_open (m : Map) (p : Position) (h : m.openAt p = true) :
    m.get_empty p = some (.Empty p) := by
  unfold Map.openAt at h
  unfold Map.get_empty at h ⊢
  split at h
  · split at h
    · simp_all
    · simp_all
  · simp_all

/-- The query `get_empty` is `none` exactly when the cell is not open. -/
theorem Map.get_empty_eq_none (m : Map) (p : Position) (h : m.openAt p = false) :
    m.get_empty p = none := by
  unfold Map.openAt at h
  cases he : m.get_empty p with
  | none => rfl
  | some c => rw [he] at h; simp at h

/-- Characterisation of `Map::operator()`: the visited check comes first,
then openness. -/
theorem Map.classify_eq (m : Map) (p : Position) :
    m.classify p =
      if p ∈ m.visited then Cell.Visited p
      else if m.openAt p then Cell.Empty p else Cell.Blocked := by
  unfold Map.classify Map.find_visited
  by_cases hv : p ∈ m.visited
  · simp [hv]
  · simp only [hv, if_neg, if_false]
    by_cases ho : m.openAt p
    · simp [Map.get_empty_eq_of_open m p ho, ho]
    · simp only [Bool.not_eq_true] at ho
      simp [Map.get_empty_eq_none m p ho, ho]

/-- Openness implies the coordinate bounds (`0 ≤ x < w`, `0 ≤ y < h`). -/
theorem Map.openAt_bounds (m : Map) (p : Position) (h : m.openAt p = true) :
    p.x < m.w ∧ 0 ≤ p.x ∧ p.y < m.h ∧ 0 ≤ p.y := by
  unfold Map.openAt Map.get_empty at h
  split at h
  · assumption
  · simp at h

/-- Inversion: an `Empty` classification names the queried position, which is
unvisited and open. -/
theorem Map.classify_empty_inv (m : Map) (p q : Position)
    (h : m.classify p = .Empty q) :
    q = p ∧ p ∉ m.visited ∧ m.openAt p = true := by
  rw [Map.classify_eq] at h
  by_cases hv : p ∈ m.visited
  · simp [hv] at h
  · by_cases ho : m.openAt p
    · simp [hv, ho] at h
      exact ⟨h.symm, hv, ho⟩
    · simp [hv, ho] at h

/-- Inversion: a `Visited` classification names the queried position, which is
in the visited history. -/
theorem Map.classify_visited_inv (m : Map) (p q : Position)
    (h : m.classify p = .Visited q) :
    q = p ∧ p ∈ m.visited := by
  rw [Map.classify_eq] at h
  by_cases hv : p ∈ m.visited
  · simp [hv] at h
    exact ⟨h.symm, hv⟩
  · by_cases ho : m.openAt p <;> simp [hv, ho] at h

/-!
## Shape lemmas for the robot transition
-/

/-- Shape of `move_to` on an `Empty` cell, explicitly. -/
theorem Robot.move_to_empty (r : Robot) (q : Position) (p : Pose) :
    r.move_to (.Empty q) p =
      ({ r with just_visited := false
                nblocked := 0
                map := r.map.mark_visited q
                poses := r.poses ++ [⟨q, p.d⟩] },
       .Running ⟨q, p.d⟩) := rfl

/-- Shape of `move_to` on a `Visited` cell with the flag set: stop, leaving the robot
unchanged. -/
theorem Robot.move_to_visited_stop (r : Robot) (q : Position) (p : Pose)
    (h : r.just_visited = true) :
    r.move_to (.Visited q) p = (r, .Stopped) := by
  unfold Robot.move_to
  rw [h]
  simp

/-- Shape of `move_to` on a `Visited` cell with the flag clear: move there, set the
flag, reset the counter, record nothing. -/
theorem Robot.move_to_visited_go (r : Robot) (q : Position) (p : Pose)
    (h : r.just_visited = false) :
    r.move_to (.Visited q) p =
      ({ r with just_visited := true, nblocked := 0 }, .Running ⟨q, p.d⟩) := by
  unfold Robot.move_to
  rw [h]
  simp

/-- Shape of `move_to` on a `Blocked` cell, explicitly. -/
theorem Robot.move_to_blocked (r : Robot) (p : Pose) :
    r.move_to .Blocked p =
      if r.nblocked + 1 = 4 then ({ r with nblocked := r.nblocked + 1 }, .Stopped)
      else ({ r with nblocked := r.nblocked + 1 }, .Running p.rotate) := by
  unfold Robot.move_to
  split <;> simp_all

/-- Fuel monotonicity: a loop that stops within `n` steps stops with the same
result given any larger fuel. -/
theorem Robot.loop_mono (n : Nat) :
    ∀ (k : Nat) (r : Robot) (pose : Pose) (r' : Robot),
      Robot.loop n r pose = some r' → n ≤ k → Robot.loop k r pose = some r' := by
  induction n with
  | zero => intro k r pose r' h _; simp [Robot.loop] at h
  | succ n ih =>
      intro k r pose r' h hk
      match k, hk with
      | k + 1, hk =>
        unfold Robot.loop at h ⊢
        cases hm : r.move_to (r.peek pose) pose with
        | mk r1 st =>
          rw [hm] at h
          cases st with
          | Stopped => exact h
          | Running pose' => exact ih k r1 pose' r' h (Nat.succ_le_succ_iff.mp hk)


/-!
## Termination measure

Positions the robot can ever record are the in-bounds cells plus the seeded
`(0,0)`; the measure combines the number of unrecorded such cells with the
`just_visited` flag and the blocked counter.
-/

/-- The finite set of positions that can ever appear in the visited history:
in-bounds cells plus the seeded origin. -/
def Map.cells (m : Map) : Finset Position :=
  ((Finset.range m.w.toNat ×ˢ Finset.range m.h.toNat).image
    (fun q => (⟨(q.1 : Int), (q.2 : Int)⟩ : Position))) ∪ {⟨0, 0⟩}

/-- An open cell lies in `cells`. -/
theorem Map.mem_cells_of_open (m : Map) (p : Position) (h : m.openAt p = true) :
    p ∈ m.cells := by
  obtain ⟨hxw, hx0, hyh, hy0⟩ := m.openAt_bounds p h
  unfold Map.cells
  apply Finset.mem_union_left
  apply Finset.mem_image.mpr
  refine ⟨(p.x.toNat, p.y.toNat), ?_, ?_⟩
  · rw [Finset.mem_product]
    constructor <;> rw [Finset.mem_range] <;> omega
  · have hx : (p.x.toNat : Int) = p.x := Int.toNat_of_nonneg hx0
    have hy : (p.y.toNat : Int) = p.y := Int.toNat_of_nonneg hy0
    simp only at *
    rw [hx, hy]

/-- The origin lies in `cells`. -/
theorem Map.origin_mem_cells (m : Map) : (⟨0, 0⟩ : Position) ∈ m.cells := by
  unfold Map.cells
  exact Finset.mem_union_right _ (Finset.mem_singleton_self _)

/-- The set `cells` has at most `w*h + 1` elements. -/
theorem Map.card_cells_le (m : Map) :
    m.cells.card ≤ m.w.toNat * m.h.toNat + 1 := by
  unfold Map.cells
  calc _ ≤ _ + _ := Finset.card_union_le _ _
    _ ≤ m.w.toNat * m.h.toNat + 1 := by
        have h1 : ((Finset.range m.w.toNat ×ˢ Finset.range m.h.toNat).image
              (fun q => (⟨(q.1 : Int), (q.2 : Int)⟩ : Position))).card
            ≤ (Finset.range m.w.toNat ×ˢ Finset.range m.h.toNat).card :=
          Finset.card_image_le
        rw [Finset.card_product, Finset.card_range, Finset.card_range] at h1
        have h2 : ({(⟨0, 0⟩ : Position)} : Finset Position).card = 1 :=
          Finset.card_singleton _
        omega

/-- Upper bound on the number of distinct recordable positions. -/
def Robot.cap (r : Robot) : Nat :=
  r.map.w.toNat * r.map.h.toNat + 1

/-- Number of distinct positions recorded so far. -/
def Robot.dcount (r : Robot) : Nat :=
  r.map.visited.toFinset.card

/-- Loop invariant: every recorded position is a recordable cell, and the
blocked counter is at most 3 while the loop is live. -/
def Robot.Inv (r : Robot) : Prop :=
  (∀ p ∈ r.map.visited, p ∈ r.map.cells) ∧ r.nblocked ≤ 3

/-- The decreasing measure of the traversal loop. -/
def Robot.meas (r : Robot) : Nat :=
  10 * (r.cap - r.dcount) + (if r.just_visited then 0 else 5) + (4 - r.nblocked)

/-- Under the invariant, the distinct count never exceeds the cap. -/
theorem Robot.dcount_le_cap (r : Robot) (h : ∀ p ∈ r.map.visited, p ∈ r.map.cells) :
    r.dcount ≤ r.cap := by
  unfold Robot.dcount Robot.cap
  calc r.map.visited.toFinset.card
      ≤ r.map.cells.card := by
        apply Finset.card_le_card
        intro p hp
        exact h p (List.mem_toFinset.mp hp)
    _ ≤ _ := r.map.card_cells_le

/-- Appending an unrecorded position bumps the distinct count by one. -/
theorem Map.toFinset_card_mark (m : Map) (q : Position) (h : q ∉ m.visited) :
    (m.visited ++ [q]).toFinset.card = m.visited.toFinset.card + 1 := by
  rw [List.toFinset_append]
  simp only [List.toFinset_cons, List.toFinset_nil, insert_emptyc_eq]
  rw [Finset.union_comm, ← Finset.insert_eq]
  exact Finset.card_insert_of_not_mem (fun hq => h (List.mem_toFinset.mp hq))

/-- One live step of the loop preserves the invariant and strictly decreases
the measure. -/
theorem Robot.step_decrease (r : Robot) (pose : Pose) (r' : Robot) (pose' : Pose)
    (hI : r.Inv) (hs : r.move_to (r.peek pose) pose = (r', .Running pose')) :
    r'.Inv ∧ r'.meas < r.meas := by
  obtain ⟨hmem, hnb⟩ := hI
  cases hc : r.peek pose with
  | Empty q =>
      obtain ⟨hq, hvnot, hopen⟩ := Map.classify_empty_inv _ _ _ hc
      subst hq
      set q := (pose.advance).p with hqdef
      rw [hc, Robot.move_to_empty] at hs
      have hr' : r' = { r with just_visited := false
                               nblocked := 0
                               map := r.map.mark_visited q
                               poses := r.poses ++ [⟨q, pose.d⟩] } :=
        ((Prod.mk.injEq _ _ _ _).mp hs).1.symm
      subst hr'
      have hcell : q ∈ r.map.cells := r.map.mem_cells_of_open _ hopen
      have hmem' : ∀ p ∈ (r.map.mark_visited q).visited, p ∈ r.map.cells := by
        intro p hp
        simp only [Map.mark_visited, List.mem_append, List.mem_singleton] at hp
        rcases hp with hp | hp
        · exact hmem p hp
        · subst hp; exact hcell
      constructor
      · refine ⟨?_, Nat.zero_le 3⟩
        intro p hp
        simp only at hp
        exact hmem' p hp
      · have hnew : (r.map.visited.toFinset ∪ {q}).card
            = r.map.visited.toFinset.card + 1 := by
          rw [Finset.union_comm, ← Finset.insert_eq]
          exact Finset.card_insert_of_not_mem
            (fun hmem'' => hvnot (List.mem_toFinset.mp hmem''))
        have hle : r.map.visited.toFinset.card + 1 ≤ r.map.w.toNat * r.map.h.toNat + 1 := by
          rw [← hnew]
          calc (r.map.visited.toFinset ∪ {q}).card
              = (r.map.mark_visited q).visited.toFinset.card := by
                simp [Map.mark_visited]
            _ ≤ r.map.cells.card := by
                apply Finset.card_le_card
                intro p hp
                exact hmem' p (List.mem_toFinset.mp hp)
            _ ≤ _ := r.map.card_cells_le
        cases hjvv : r.just_visited <;>
          simp [Robot.meas, Robot.dcount, Robot.cap, Map.mark_visited, hnew, hjvv] <;>
          omega
  | Visited q =>
      have hjv : r.just_visited = false := by
        cases hjv : r.just_visited with
        | false => rfl
        | true =>
            rw [hc, Robot.move_to_visited_stop r q pose hjv] at hs
            exact absurd ((Prod.mk.injEq _ _ _ _).mp hs).2 (by simp)
      rw [hc, Robot.move_to_visited_go r q pose hjv] at hs
      have hr' : r' = { r with just_visited := true, nblocked := 0 } :=
        ((Prod.mk.injEq _ _ _ _).mp hs).1.symm
      subst hr'
      refine ⟨⟨hmem, Nat.zero_le 3⟩, ?_⟩
      simp only [Robot.meas, Robot.dcount, Robot.cap, hjv]
      simp only [if_true, if_false, Bool.false_eq_true]
      omega
  | Blocked =>
      rw [hc, Robot.move_to_blocked] at hs
      split at hs
      · exact absurd ((Prod.mk.injEq _ _ _ _).mp hs).2 (by simp)
      · have hr' : r' = { r with nblocked := r.nblocked + 1 } :=
          ((Prod.mk.injEq _ _ _ _).mp hs).1.symm
        subst hr'
        have hne : r.nblocked + 1 ≠ 4 := by assumption
        refine ⟨⟨hmem, by dsimp only; omega⟩, ?_⟩
        unfold Robot.meas Robot.dcount Robot.cap
        dsimp only
        cases hjvv : r.just_visited <;> simp [hjvv] <;> omega


/-- With fuel exceeding the measure, the loop reaches `Stopped`. -/
theorem Robot.loop_total (n : Nat) :
    ∀ (r : Robot) (pose : Pose), r.Inv → r.meas < n →
      ∃ r', Robot.loop n r pose = some r' := by
  induction n with
  | zero => intro r pose _ h; omega
  | succ n ih =>
      intro r pose hI hm
      unfold Robot.loop
      cases hs : r.move_to (r.peek pose) pose with
      | mk r1 st =>
        cases st with
        | Stopped => exact ⟨r1, rfl⟩
        | Running pose' =>
            obtain ⟨hI', hlt⟩ := Robot.step_decrease r pose r1 pose' hI hs
            exact ih r1 pose' hI' (by omega)

/-- The invariant holds at construction time: the visited history holds only
the seeded origin, and the blocked counter is zero. -/
theorem Robot.make_inv (g : Layout) (m : Map) (pose : Pose)
    (hm : Map.ofLayout g = some m) : (Robot.make m pose).Inv := by
  cases g with
  | nil => simp [Map.ofLayout] at hm
  | cons row rows =>
      simp only [Map.ofLayout, Option.some.injEq] at hm
      constructor
      · intro p hp
        dsimp only [Robot.make] at hp
        rw [← hm] at hp
        simp only [List.mem_singleton] at hp
        subst hp
        exact Map.origin_mem_cells _
      · dsimp only [Robot.make]
        omega

/-- The fuel supplied by `run` strictly dominates the measure. -/
theorem Robot.meas_lt_fuel (r : Robot) : r.meas < r.fuel := by
  unfold Robot.meas Robot.fuel Robot.cap
  have h1 : r.cap - r.dcount ≤ r.cap := Nat.sub_le _ _
  unfold Robot.cap at h1
  split <;> omega

/-- Any robot built by the constructor on a constructible map runs to
completion: `run` yields a count. -/
theorem Robot.run_terminates (g : Layout) (m : Map) (pose : Pose)
    (hm : Map.ofLayout g = some m) :
    ∃ k, (Robot.make m pose).run = some k := by
  obtain ⟨r', hr'⟩ := Robot.loop_total (Robot.fuel (Robot.make m pose))
    (Robot.make m pose) pose (Robot.make_inv g m pose hm) (Robot.meas_lt_fuel _)
  refine ⟨r'.poses.length, ?_⟩
  have hrun : (Robot.make m pose).run
      = (Robot.loop (Robot.fuel (Robot.make m pose)) (Robot.make m pose) pose).map
          (fun rr => rr.poses.length) := rfl
  rw [hrun, hr']
  rfl

/-- No transition shortens the pose history. -/
theorem Robot.move_to_poses_mono (r : Robot) (cell : Cell) (p : Pose) :
    r.poses.length ≤ (r.move_to cell p).1.poses.length := by
  cases cell with
  | Empty q => simp [Robot.move_to]
  | Visited q =>
      by_cases hjv : r.just_visited = true <;> simp [Robot.move_to, hjv]
  | Blocked =>
      by_cases hnb : r.nblocked + 1 = 4 <;> simp [Robot.move_to, hnb]

/-- Across a whole terminating loop, the pose history only grows. -/
theorem Robot.loop_length_mono (n : Nat) :
    ∀ (r : Robot) (pose : Pose) (r' : Robot),
      Robot.loop n r pose = some r' → r.poses.length ≤ r'.poses.length := by
  induction n with
  | zero => intro r pose r' h; simp [Robot.loop] at h
  | succ n ih =>
      intro r pose r' h
      unfold Robot.loop at h
      cases hm : r.move_to (r.peek pose) pose with
      | mk r1 st =>
        rw [hm] at h
        have h1 : r.poses.length ≤ r1.poses.length := by
          have h2 := Robot.move_to_poses_mono r (r.peek pose) pose
          rw [hm] at h2
          exact h2
        cases st with
        | Stopped =>
            simp only [Option.some.injEq] at h
            rw [← h]
            exact h1
        | Running pose' => exact le_trans h1 (ih r1 pose' r' h)

/-!
## Single-step loop unfoldings
-/

/-- Rotation never changes the position. -/
theorem Pose.rotate_p (pose : Pose) : pose.rotate.p = pose.p := rfl

/-- One loop iteration over an `Empty` peek. -/
theorem Robot.loop_succ_empty (n : Nat) (r : Robot) (pose : Pose) (q : Position)
    (hb : r.peek pose = .Empty q) :
    Robot.loop (n + 1) r pose
      = Robot.loop n
          ({ r with just_visited := false
                    nblocked := 0
                    map := r.map.mark_visited q
                    poses := r.poses ++ [⟨q, pose.d⟩] })
          ⟨q, pose.d⟩ := by
  unfold Robot.loop
  rw [hb, Robot.move_to_empty]
  cases n <;> rfl

/-- One loop iteration over a `Visited` peek with the flag clear. -/
theorem Robot.loop_succ_visited_go (n : Nat) (r : Robot) (pose : Pose) (q : Position)
    (hb : r.peek pose = .Visited q) (hjv : r.just_visited = false) :
    Robot.loop (n + 1) r pose
      = Robot.loop n { r with just_visited := true, nblocked := 0 } ⟨q, pose.d⟩ := by
  unfold Robot.loop
  rw [hb, Robot.move_to_visited_go r q pose hjv]
  cases n <;> rfl

/-- One loop iteration over a `Visited` peek with the flag set: stop. -/
theorem Robot.loop_succ_visited_stop (n : Nat) (r : Robot) (pose : Pose) (q : Position)
    (hb : r.peek pose = .Visited q) (hjv : r.just_visited = true) :
    Robot.loop (n + 1) r pose = some r := by
  unfold Robot.loop
  rw [hb, Robot.move_to_visited_stop r q pose hjv]

/-- One loop iteration over a `Blocked` peek below the rotation budget. -/
theorem Robot.loop_succ_blocked (n : Nat) (r : Robot) (pose : Pose)
    (hb : r.peek pose = .Blocked) (hnb4 : r.nblocked + 1 ≠ 4) :
    Robot.loop (n + 1) r pose
      = Robot.loop n { r with nblocked := r.nblocked + 1 } pose.rotate := by
  unfold Robot.loop
  rw [hb, Robot.move_to_blocked, if_neg hnb4]
  cases n <;> rfl

/-- One loop iteration over a fourth consecutive `Blocked` peek: stop. -/
theorem Robot.loop_succ_blocked_stop (n : Nat) (r : Robot) (pose : Pose)
    (hb : r.peek pose = .Blocked) (hnb4 : r.nblocked + 1 = 4) :
    Robot.loop (n + 1) r pose = some { r with nblocked := r.nblocked + 1 } := by
  unfold Robot.loop
  rw [hb, Robot.move_to_blocked, if_pos hnb4]

/-- Four consecutive `Blocked` peeks from a zeroed counter spin the robot in
place and stop it, leaving everything but the counter unchanged. -/
theorem Robot.loop_blocked4 (n : Nat) (r : Robot) (pose : Pose)
    (hnb : r.nblocked = 0)
    (hb : ∀ d : Direction, r.map.classify (pose.p.add d) = .Blocked) :
    Robot.loop (n + 4) r pose = some { r with nblocked := 4 } := by
  obtain ⟨m, jv, nb, ps⟩ := r
  dsimp only at hnb hb ⊢
  subst hnb
  have s1 : Robot.loop (n + 3 + 1) ⟨m, jv, 0, ps⟩ pose
      = Robot.loop (n + 3) ⟨m, jv, 1, ps⟩ pose.rotate :=
    Robot.loop_succ_blocked (n + 3) ⟨m, jv, 0, ps⟩ pose (hb pose.d) (by dsimp only; decide)
  have s2 : Robot.loop (n + 2 + 1) ⟨m, jv, 1, ps⟩ pose.rotate
      = Robot.loop (n + 2) ⟨m, jv, 2, ps⟩ pose.rotate.rotate :=
    Robot.loop_succ_blocked (n + 2) ⟨m, jv, 1, ps⟩ pose.rotate
      (hb pose.rotate.d) (by dsimp only; decide)
  have s3 : Robot.loop (n + 1 + 1) ⟨m, jv, 2, ps⟩ pose.rotate.rotate
      = Robot.loop (n + 1) ⟨m, jv, 3, ps⟩ pose.rotate.rotate.rotate :=
    Robot.loop_succ_blocked (n + 1) ⟨m, jv, 2, ps⟩ pose.rotate.rotate
      (hb pose.rotate.rotate.d) (by dsimp only; decide)
  have s4 : Robot.loop (n + 1) ⟨m, jv, 3, ps⟩ pose.rotate.rotate.rotate
      = some ⟨m, jv, 4, ps⟩ :=
    Robot.loop_succ_blocked_stop n ⟨m, jv, 3, ps⟩ pose.rotate.rotate.rotate
      (hb pose.rotate.rotate.rotate.d) rfl
  calc Robot.loop (n + 4) ⟨m, jv, 0, ps⟩ pose
      = Robot.loop (n + 3) ⟨m, jv, 1, ps⟩ pose.rotate := s1
    _ = Robot.loop (n + 2) ⟨m, jv, 2, ps⟩ pose.rotate.rotate := s2
    _ = Robot.loop (n + 1) ⟨m, jv, 3, ps⟩ pose.rotate.rotate.rotate := s3
    _ = some ⟨m, jv, 4, ps⟩ := s4

/-!
## The single-row sweep (used for the single-row traversal property)
-/

/-- The first `n` cells of a single row, left to right. -/
def sweep (n : Nat) : List Position :=
  (List.range n).map (fun (i : Nat) => (⟨(i : Int), 0⟩ : Position))

/-- The list `sweep` grows one cell at a time on the right. -/
theorem sweep_succ (n : Nat) : sweep (n + 1) = sweep n ++ [⟨(n : Int), 0⟩] := by
  unfold sweep
  rw [List.range_succ, List.map_append]
  rfl

/-- Membership in `sweep n` is the obvious coordinate condition. -/
theorem mem_sweep (n : Nat) (p : Position) :
    p ∈ sweep n ↔ 0 ≤ p.x ∧ p.x < (n : Int) ∧ p.y = 0 := by
  obtain ⟨x, y⟩ := p
  simp only [sweep, List.mem_map, List.mem_range, Position.mk.injEq]
  constructor
  · rintro ⟨i, hi, hx, hy⟩
    subst hx
    subst hy
    refine ⟨?_, ?_, rfl⟩ <;> omega
  · rintro ⟨h0, hn, hy⟩
    subst hy
    exact ⟨x.toNat, by omega, by omega, rfl⟩

/-- The single-row map of `h` open cells with the first `n` recorded. -/
def mRow (h n : Nat) : Map :=
  ⟨[List.replicate h '.'], (h : Int), 1, sweep n⟩

/-- Openness on the single-row map. -/
theorem openAt_mRow (h n : Nat) (p : Position) :
    (mRow h n).openAt p = true ↔ 0 ≤ p.x ∧ p.x < (h : Int) ∧ p.y = 0 := by
  unfold Map.openAt Map.get_empty mRow
  dsimp only
  constructor
  · intro ho
    split at ho
    · rename_i hcond
      obtain ⟨h1, h2, h3, h4⟩ := hcond
      exact ⟨h2, h1, by omega⟩
    · simp at ho
  · rintro ⟨h0, hh, hy⟩
    rw [if_pos (show p.x < (h : Int) ∧ 0 ≤ p.x ∧ p.y < 1 ∧ 0 ≤ p.y by omega)]
    have hyn : p.y.toNat = 0 := by omega
    have hxn : p.x.toNat < h := by omega
    rw [hyn]
    simp [List.getD, List.getElem?_replicate, hxn]

/-- Classification on the single-row map. -/
theorem classify_mRow (h n : Nat) (p : Position) :
    (mRow h n).classify p =
      if 0 ≤ p.x ∧ p.x < (n : Int) ∧ p.y = 0 then .Visited p
      else if 0 ≤ p.x ∧ p.x < (h : Int) ∧ p.y = 0 then .Empty p
      else .Blocked := by
  rw [Map.classify_eq]
  have hviff : (p ∈ (mRow h n).visited) ↔ (0 ≤ p.x ∧ p.x < (n : Int) ∧ p.y = 0) :=
    mem_sweep n p
  have hoiff : ((mRow h n).openAt p = true) ↔ (0 ≤ p.x ∧ p.x < (h : Int) ∧ p.y = 0) :=
    openAt_mRow h n p
  by_cases hv : 0 ≤ p.x ∧ p.x < (n : Int) ∧ p.y = 0
  · rw [if_pos (hviff.mpr hv), if_pos hv]
  · rw [if_neg (fun hm => hv (hviff.mp hm)), if_neg hv]
    by_cases ho : 0 ≤ p.x ∧ p.x < (h : Int) ∧ p.y = 0
    · rw [if_pos (hoiff.mpr ho), if_pos ho]
    · rw [if_neg (fun hop => ho (hoiff.mp hop)), if_neg ho]

/-- Recording the next row cell extends the sweep. -/
theorem mark_mRow (h k : Nat) :
    (mRow h (k + 1)).mark_visited ⟨(k : Int) + 1, 0⟩ = mRow h (k + 2) := by
  have hc : ((k + 1 : Nat) : Int) = (k : Int) + 1 := by push_cast; ring
  unfold mRow Map.mark_visited
  dsimp only
  rw [show sweep (k + 2) = sweep (k + 1) ++ [⟨((k + 1 : Nat) : Int), 0⟩] from sweep_succ (k + 1)]
  rw [hc]

/-- Endgame of the single-row sweep: standing on the last cell with the whole
row recorded, the robot stops within six iterations without growing the
history. -/
theorem Robot.loop_row_end (k : Nat) (ps : List Pose) (hlen : ps.length = k + 1) :
    ∃ r', Robot.loop 6 ⟨mRow (k + 1) (k + 1), false, 0, ps⟩ ⟨⟨(k : Int), 0⟩, .R⟩ = some r'
      ∧ r'.map.visited = sweep (k + 1) ∧ r'.poses.length = k + 1 := by
  rcases k with _ | _ | k
  · -- h = 1: four blocked peeks, full rotation, stop
    refine ⟨⟨mRow 1 1, false, 4, ps⟩, ?_, rfl, hlen⟩
    have hb : ∀ d : Direction, (mRow 1 1).classify ((⟨0, 0⟩ : Position).add d) = .Blocked := by
      intro d
      cases d <;> decide
    exact Robot.loop_blocked4 2 ⟨mRow 1 1, false, 0, ps⟩ ⟨⟨0, 0⟩, .R⟩ rfl hb
  · -- h = 2: blocked, blocked, probe back, blocked, blocked, stop
    refine ⟨⟨mRow 2 2, true, 2, ps⟩, ?_, rfl, hlen⟩
    have c1 : (mRow 2 2).classify ⟨2, 0⟩ = .Blocked := by decide
    have c2 : (mRow 2 2).classify ⟨1, 1⟩ = .Blocked := by decide
    have c3 : (mRow 2 2).classify ⟨0, 0⟩ = .Visited ⟨0, 0⟩ := by decide
    have c4 : (mRow 2 2).classify ⟨-1, 0⟩ = .Blocked := by decide
    have c5 : (mRow 2 2).classify ⟨0, -1⟩ = .Blocked := by decide
    have c6 : (mRow 2 2).classify ⟨1, 0⟩ = .Visited ⟨1, 0⟩ := by decide
    calc Robot.loop 6 ⟨mRow 2 2, false, 0, ps⟩ ⟨⟨1, 0⟩, .R⟩
        = Robot.loop 5 ⟨mRow 2 2, false, 1, ps⟩ ⟨⟨1, 0⟩, .D⟩ :=
          Robot.loop_succ_blocked 5 ⟨mRow 2 2, false, 0, ps⟩ ⟨⟨1, 0⟩, .R⟩ c1
            (by dsimp only; decide)
      _ = Robot.loop 4 ⟨mRow 2 2, false, 2, ps⟩ ⟨⟨1, 0⟩, .L⟩ :=
          Robot.loop_succ_blocked 4 ⟨mRow 2 2, false, 1, ps⟩ ⟨⟨1, 0⟩, .D⟩ c2
            (by dsimp only; decide)
      _ = Robot.loop 3 ⟨mRow 2 2, true, 0, ps⟩ ⟨⟨0, 0⟩, .L⟩ :=
          Robot.loop_succ_visited_go 3 ⟨mRow 2 2, false, 2, ps⟩ ⟨⟨1, 0⟩, .L⟩ ⟨0, 0⟩ c3 rfl
      _ = Robot.loop 2 ⟨mRow 2 2, true, 1, ps⟩ ⟨⟨0, 0⟩, .U⟩ :=
          Robot.loop_succ_blocked 2 ⟨mRow 2 2, true, 0, ps⟩ ⟨⟨0, 0⟩, .L⟩ c4
            (by dsimp only; decide)
      _ = Robot.loop 1 ⟨mRow 2 2, true, 2, ps⟩ ⟨⟨0, 0⟩, .R⟩ :=
          Robot.loop_succ_blocked 1 ⟨mRow 2 2, true, 1, ps⟩ ⟨⟨0, 0⟩, .U⟩ c5
            (by dsimp only; decide)
      _ = some ⟨mRow 2 2, true, 2, ps⟩ :=
          Robot.loop_succ_visited_stop 0 ⟨mRow 2 2, true, 2, ps⟩ ⟨⟨0, 0⟩, .R⟩ ⟨1, 0⟩ c6 rfl
  · -- h = k + 3 ≥ 3: blocked, blocked, probe back once, second probe stops
    refine ⟨⟨mRow (k + 3) (k + 3), true, 0, ps⟩, ?_, rfl, hlen⟩
    have c1 : (mRow (k + 3) (k + 3)).classify ⟨((k + 2 : Nat) : Int) + 1, 0⟩ = .Blocked := by
      rw [classify_mRow]
      rw [if_neg (by dsimp only; omega), if_neg (by dsimp only; omega)]
    have c2 : (mRow (k + 3) (k + 3)).classify ⟨((k + 2 : Nat) : Int), 1⟩ = .Blocked := by
      rw [classify_mRow]
      rw [if_neg (by dsimp only; omega), if_neg (by dsimp only; omega)]
    have c3 : (mRow (k + 3) (k + 3)).classify ⟨((k + 2 : Nat) : Int) - 1, 0⟩
        = .Visited ⟨((k + 2 : Nat) : Int) - 1, 0⟩ := by
      rw [classify_mRow]
      rw [if_pos (by dsimp only; constructor <;> omega)]
    have c4 : (mRow (k + 3) (k + 3)).classify ⟨((k + 2 : Nat) : Int) - 1 - 1, 0⟩
        = .Visited ⟨((k + 2 : Nat) : Int) - 1 - 1, 0⟩ := by
      rw [classify_mRow]
      rw [if_pos (by dsimp only; constructor <;> omega)]
    calc Robot.loop 6 ⟨mRow (k + 3) (k + 3), false, 0, ps⟩ ⟨⟨((k + 2 : Nat) : Int), 0⟩, .R⟩
        = Robot.loop 5 ⟨mRow (k + 3) (k + 3), false, 1, ps⟩ ⟨⟨((k + 2 : Nat) : Int), 0⟩, .D⟩ :=
          Robot.loop_succ_blocked 5 ⟨mRow (k + 3) (k + 3), false, 0, ps⟩
            ⟨⟨((k + 2 : Nat) : Int), 0⟩, .R⟩ c1 (by dsimp only; decide)
      _ = Robot.loop 4 ⟨mRow (k + 3) (k + 3), false, 2, ps⟩ ⟨⟨((k + 2 : Nat) : Int), 0⟩, .L⟩ :=
          Robot.loop_succ_blocked 4 ⟨mRow (k + 3) (k + 3), false, 1, ps⟩
            ⟨⟨((k + 2 : Nat) : Int), 0⟩, .D⟩ c2 (by dsimp only; decide)
      _ = Robot.loop 3 ⟨mRow (k + 3) (k + 3), true, 0, ps⟩
            ⟨⟨((k + 2 : Nat) : Int) - 1, 0⟩, .L⟩ :=
          Robot.loop_succ_visited_go 3 ⟨mRow (k + 3) (k + 3), false, 2, ps⟩
            ⟨⟨((k + 2 : Nat) : Int), 0⟩, .L⟩ ⟨((k + 2 : Nat) : Int) - 1, 0⟩ c3 rfl
      _ = some ⟨mRow (k + 3) (k + 3), true, 0, ps⟩ :=
          Robot.loop_succ_visited_stop 2 ⟨mRow (k + 3) (k + 3), true, 0, ps⟩
            ⟨⟨((k + 2 : Nat) : Int) - 1, 0⟩, .L⟩ ⟨((k + 2 : Nat) : Int) - 1 - 1, 0⟩ c4 rfl

/-- Sweeping phase of the single-row traversal: from cell `k` with the first
`k+1` cells recorded, the robot records the rest of the row and stops with
history length `h`. -/
theorem Robot.loop_row (h : Nat) :
    ∀ (j k : Nat) (ps : List Pose), j + (k + 1) = h → ps.length = k + 1 →
      ∃ r', Robot.loop (j + 6) ⟨mRow h (k + 1), false, 0, ps⟩ ⟨⟨(k : Int), 0⟩, .R⟩ = some r'
        ∧ r'.map.visited = sweep h ∧ r'.poses.length = h := by
  intro j
  induction j with
  | zero =>
      intro k ps hjk hlen
      have hh : h = k + 1 := by omega
      subst hh
      exact Robot.loop_row_end k ps hlen
  | succ j ih =>
      intro k ps hjk hlen
      have hc : ((k + 1 : Nat) : Int) = (k : Int) + 1 := by push_cast; ring
      have hfE : (mRow h (k + 1)).classify ⟨(k : Int) + 1, 0⟩ = .Empty ⟨(k : Int) + 1, 0⟩ := by
        rw [classify_mRow]
        rw [if_neg (by dsimp only; omega), if_pos (by dsimp only; constructor <;> omega)]
      have hstep := Robot.loop_succ_empty (j + 6) ⟨mRow h (k + 1), false, 0, ps⟩
        ⟨⟨(k : Int), 0⟩, .R⟩ ⟨(k : Int) + 1, 0⟩ hfE
      dsimp only at hstep
      rw [mark_mRow] at hstep
      obtain ⟨r', hr', hv, hl⟩ := ih (k + 1) (ps ++ [⟨⟨(k : Int) + 1, 0⟩, .R⟩])
        (by omega) (by simp [hlen])
      rw [hc] at hr'
      refine ⟨r', ?_, hv, hl⟩
      rw [show j + 1 + 6 = j + 6 + 1 from rfl, hstep]
      exact hr'

/-!
## The claims
-/

/-- The per-test flow of `main`: build the `Map` from the layout, build a
`Robot` on it at the given pose, and `run()` it. -/
def runOn (g : Layout) (pose : Pose) : Option Nat :=
  (Map.ofLayout g).bind (fun m => (Robot.make m pose).run)

/-- C1: each of the six reference scenarios, run from `(0,0)` heading Right,
returns exactly the count asserted in `main`'s test table
(15, 6, 9, 2, 1, 1). -/
theorem claim_C1 :
    runOn ["....x..".data, "x......".data, ".....x.".data, ".......".data]
        ⟨⟨0, 0⟩, .R⟩ = some 15
    ∧ runOn ["...x..".data, "....xx".data, "..x...".data] ⟨⟨0, 0⟩, .R⟩ = some 6
    ∧ runOn ["...x.".data, ".x..x".data, "x...x".data, "..x..".data] ⟨⟨0, 0⟩, .R⟩ = some 9
    ∧ runOn [".".data, ".".data] ⟨⟨0, 0⟩, .R⟩ = some 2
    ∧ runOn [".x".data] ⟨⟨0, 0⟩, .R⟩ = some 1
    ∧ runOn [".".data, "x".data] ⟨⟨0, 0⟩, .R⟩ = some 1 := by
  refine ⟨?_, ?_, ?_, ?_, ?_, ?_⟩ <;> decide

/-- A position in the visited history classifies as `Visited` no matter what
the grid holds there. -/
theorem Map.classify_of_mem (m : Map) (p : Position) (h : p ∈ m.visited) :
    m.classify p = .Visited p := by
  rw [Map.classify_eq, if_pos h]

/-- An unvisited, non-open position classifies as `Blocked`. -/
theorem Map.classify_of_not_mem_not_open (m : Map) (p : Position)
    (h1 : p ∉ m.visited) (h2 : m.openAt p = false) : m.classify p = .Blocked := by
  rw [Map.classify_eq, if_neg h1, if_neg (by simp [h2])]

/-- C2: every run from a constructible map terminates — the traversal loop
reaches `Stopped` within the supplied fuel, so `run()` returns a count.
Stated for rectangular grids and an in-bounds open start, as the claim has
it (the proof does not even need those restrictions). -/
theorem claim_C2 (g : Layout) (m : Map) (pose : Pose)
    (hm : Map.ofLayout g = some m)
    (hrect : ∀ row ∈ g, (row.length : Int) = m.w)
    (hopen : m.openAt pose.p = true) :
    ∃ k, (Robot.make m pose).run = some k :=
  Robot.run_terminates g m pose hm

/-- Witness for C2 on the one-cell open grid. -/
theorem claim_C2_witness :
    ∃ k, (Robot.make ⟨[['.']], 1, 1, [⟨0, 0⟩]⟩ ⟨⟨0, 0⟩, .R⟩).run = some k :=
  claim_C2 [['.']] ⟨[['.']], 1, 1, [⟨0, 0⟩]⟩ ⟨⟨0, 0⟩, .R⟩ rfl (by decide) (by decide)

/-- C3 counterexample: at the seeded origin of an all-wall grid the cell is
not open yet classifies `Visited`, not `Blocked` — the visited check comes
first in `Map::operator()`. -/
theorem claim_C3_counterexample :
    Map.ofLayout [['x']] = some ⟨[['x']], 1, 1, [⟨0, 0⟩]⟩
    ∧ (⟨[['x']], 1, 1, [⟨0, 0⟩]⟩ : Map).openAt ⟨0, 0⟩ = false
    ∧ (⟨0, 0⟩ : Position) ∈ (⟨[['x']], 1, 1, [⟨0, 0⟩]⟩ : Map).visited
    ∧ (⟨[['x']], 1, 1, [⟨0, 0⟩]⟩ : Map).classify ⟨0, 0⟩ = .Visited ⟨0, 0⟩
    ∧ Cell.Visited ⟨0, 0⟩ ≠ Cell.Blocked := by
  refine ⟨rfl, rfl, ?_, rfl, ?_⟩ <;> decide

/-- C3 (amended): classification checks the visited history first; openness
only decides between `Empty` and `Blocked` for unvisited positions. -/
theorem claim_C3 (m : Map) (p : Position) :
    m.classify p =
      if p ∈ m.visited then Cell.Visited p
      else if m.openAt p then Cell.Empty p else Cell.Blocked :=
  Map.classify_eq m p

/-- C4: on a `Visited` peek the machine stops iff the just-visited flag is
already set; otherwise it moves there (direction unchanged), sets the flag,
zeroes the blocked counter and appends nothing.  `Blocked` transitions
preserve the flag and `Empty` transitions clear it. -/
theorem claim_C4 (r : Robot) (p : Pose) (q : Position) :
    (r.just_visited = true → r.move_to (.Visited q) p = (r, .Stopped))
    ∧ (r.just_visited = false →
        r.move_to (.Visited q) p
          = ({ r with just_visited := true, nblocked := 0 }, .Running ⟨q, p.d⟩))
    ∧ (r.move_to .Blocked p).1.just_visited = r.just_visited
    ∧ (r.move_to (.Empty q) p).1.just_visited = false := by
  refine ⟨fun h => Robot.move_to_visited_stop r q p h,
          fun h => Robot.move_to_visited_go r q p h, ?_, rfl⟩
  rw [Robot.move_to_blocked]
  split <;> rfl

/-- Witness for C4 at concrete robots with the flag set and clear. -/
theorem claim_C4_witness :
    (⟨⟨[['.']], 1, 1, [⟨0, 0⟩]⟩, true, 0, []⟩ : Robot).move_to (.Visited ⟨0, 0⟩) ⟨⟨1, 0⟩, .L⟩
        = (⟨⟨[['.']], 1, 1, [⟨0, 0⟩]⟩, true, 0, []⟩, .Stopped)
    ∧ (⟨⟨[['.']], 1, 1, [⟨0, 0⟩]⟩, false, 3, []⟩ : Robot).move_to (.Visited ⟨0, 0⟩) ⟨⟨1, 0⟩, .L⟩
        = (⟨⟨[['.']], 1, 1, [⟨0, 0⟩]⟩, true, 0, []⟩, .Running ⟨⟨0, 0⟩, .L⟩) :=
  ⟨(claim_C4 ⟨⟨[['.']], 1, 1, [⟨0, 0⟩]⟩, true, 0, []⟩ ⟨⟨1, 0⟩, .L⟩ ⟨0, 0⟩).1 rfl,
   (claim_C4 ⟨⟨[['.']], 1, 1, [⟨0, 0⟩]⟩, false, 3, []⟩ ⟨⟨1, 0⟩, .L⟩ ⟨0, 0⟩).2.1 rfl⟩

/-- C5 counterexample: on grid `x.` the robot starts at the open cell `(1,0)`
with no open adjacent cell, yet it does not stop after 4 blocked
classifications with history length 1 — the seeded `(0,0)` classifies
`Visited`, the robot probes it, and ends with history length 2. -/
theorem claim_C5_counterexample :
    Map.ofLayout [['x', '.']] = some ⟨[['x', '.']], 2, 1, [⟨0, 0⟩]⟩
    ∧ (⟨[['x', '.']], 2, 1, [⟨0, 0⟩]⟩ : Map).openAt (Position.add ⟨1, 0⟩ .R) = false
    ∧ (⟨[['x', '.']], 2, 1, [⟨0, 0⟩]⟩ : Map).openAt (Position.add ⟨1, 0⟩ .D) = false
    ∧ (⟨[['x', '.']], 2, 1, [⟨0, 0⟩]⟩ : Map).openAt (Position.add ⟨1, 0⟩ .L) = false
    ∧ (⟨[['x', '.']], 2, 1, [⟨0, 0⟩]⟩ : Map).openAt (Position.add ⟨1, 0⟩ .U) = false
    ∧ (⟨[['x', '.']], 2, 1, [⟨0, 0⟩]⟩ : Map).openAt ⟨1, 0⟩ = true
    ∧ (Robot.make ⟨[['x', '.']], 2, 1, [⟨0, 0⟩]⟩ ⟨⟨1, 0⟩, .R⟩).run = some 2 := by
  refine ⟨rfl, rfl, rfl, rfl, rfl, rfl, ?_⟩
  decide

/-- C5 (amended): for a start at position `(0,0)` — the cell the constructor
seeds as visited — with no open adjacent cell, the loop performs exactly one
full rotation (4 consecutive `Blocked` classifications, final counter 4) and
`run()` reports history length 1. -/
theorem claim_C5 (g : Layout) (m : Map) (d : Direction)
    (hm : Map.ofLayout g = some m)
    (hblock : ∀ d' : Direction, m.openAt (Position.add ⟨0, 0⟩ d') = false) :
    Robot.loop (Robot.fuel (Robot.make m ⟨⟨0, 0⟩, d⟩)) (Robot.make m ⟨⟨0, 0⟩, d⟩)
        ⟨⟨0, 0⟩, d⟩ = some { Robot.make m ⟨⟨0, 0⟩, d⟩ with nblocked := 4 }
    ∧ (Robot.make m ⟨⟨0, 0⟩, d⟩).run = some 1 := by
  have hvis : m.visited = [⟨0, 0⟩] := by
    cases g with
    | nil => simp [Map.ofLayout] at hm
    | cons row rows =>
        simp only [Map.ofLayout, Option.some.injEq] at hm
        rw [← hm]
  have hb : ∀ d' : Direction, m.classify (Position.add ⟨0, 0⟩ d') = .Blocked := by
    intro d'
    apply Map.classify_of_not_mem_not_open
    · rw [hvis]
      cases d' <;> decide
    · exact hblock d'
  have hF : Robot.fuel (Robot.make m ⟨⟨0, 0⟩, d⟩)
      = (Robot.fuel (Robot.make m ⟨⟨0, 0⟩, d⟩) - 4) + 4 := by
    unfold Robot.fuel
    omega
  have hloop : Robot.loop (Robot.fuel (Robot.make m ⟨⟨0, 0⟩, d⟩)) (Robot.make m ⟨⟨0, 0⟩, d⟩)
      ⟨⟨0, 0⟩, d⟩ = some { Robot.make m ⟨⟨0, 0⟩, d⟩ with nblocked := 4 } := by
    rw [hF]
    exact Robot.loop_blocked4 _ (Robot.make m ⟨⟨0, 0⟩, d⟩) ⟨⟨0, 0⟩, d⟩ rfl hb
  refine ⟨hloop, ?_⟩
  have hrun : (Robot.make m ⟨⟨0, 0⟩, d⟩).run
      = (Robot.loop (Robot.fuel (Robot.make m ⟨⟨0, 0⟩, d⟩)) (Robot.make m ⟨⟨0, 0⟩, d⟩)
          ⟨⟨0, 0⟩, d⟩).map (fun rr => rr.poses.length) := rfl
  rw [hrun, hloop]
  rfl

/-- Witness for C5 on the all-wall one-cell grid. -/
theorem claim_C5_witness :
    Robot.loop (Robot.fuel (Robot.make ⟨[['x']], 1, 1, [⟨0, 0⟩]⟩ ⟨⟨0, 0⟩, .R⟩))
        (Robot.make ⟨[['x']], 1, 1, [⟨0, 0⟩]⟩ ⟨⟨0, 0⟩, .R⟩) ⟨⟨0, 0⟩, .R⟩
        = some { Robot.make ⟨[['x']], 1, 1, [⟨0, 0⟩]⟩ ⟨⟨0, 0⟩, .R⟩ with nblocked := 4 }
    ∧ (Robot.make ⟨[['x']], 1, 1, [⟨0, 0⟩]⟩ ⟨⟨0, 0⟩, .R⟩).run = some 1 :=
  claim_C5 [['x']] ⟨[['x']], 1, 1, [⟨0, 0⟩]⟩ .R rfl (by decide)

/-- C6 counterexample: a single row of 3 open cells traversed from the right
end heading Left yields count 2, not 3 — the seeded `(0,0)` classifies
`Visited` before being physically reached, so it is never recorded. -/
theorem claim_C6_counterexample :
    Map.ofLayout [['.', '.', '.']] = some ⟨[['.', '.', '.']], 3, 1, [⟨0, 0⟩]⟩
    ∧ (Robot.make ⟨[['.', '.', '.']], 3, 1, [⟨0, 0⟩]⟩ ⟨⟨2, 0⟩, .L⟩).run = some 2 := by
  refine ⟨rfl, ?_⟩
  decide

/-- C6 (amended): for a single row of `h` open cells traversed from the
`(0,0)` end heading Right — the reference orientation — the robot records all
`h` cells in left-to-right order and `run()` returns `h`. -/
theorem claim_C6 (h : Nat) (m : Map) (hpos : 0 < h)
    (hm : Map.ofLayout [List.replicate h '.'] = some m) :
    (∃ r', Robot.loop (Robot.fuel (Robot.make m ⟨⟨0, 0⟩, .R⟩)) (Robot.make m ⟨⟨0, 0⟩, .R⟩)
          ⟨⟨0, 0⟩, .R⟩ = some r' ∧ r'.map.visited = sweep h ∧ r'.poses.length = h)
    ∧ (Robot.make m ⟨⟨0, 0⟩, .R⟩).run = some h := by
  have hm' : m = mRow h 1 := by
    simp only [Map.ofLayout, Option.some.injEq] at hm
    rw [← hm]
    unfold mRow
    simp [sweep]
    decide
  subst hm'
  obtain ⟨j, hj⟩ : ∃ j, j + 1 = h := ⟨h - 1, by omega⟩
  obtain ⟨r', hr', hv, hl⟩ := Robot.loop_row h j 0 [⟨⟨0, 0⟩, .R⟩] (by omega) rfl
  have hfuel : j + 6 ≤ Robot.fuel (Robot.make (mRow h 1) ⟨⟨0, 0⟩, .R⟩) := by
    unfold Robot.fuel mRow Robot.make
    dsimp only
    rw [Int.toNat_natCast, Int.toNat_one]
    omega
  have hloop : Robot.loop (Robot.fuel (Robot.make (mRow h 1) ⟨⟨0, 0⟩, .R⟩))
      (Robot.make (mRow h 1) ⟨⟨0, 0⟩, .R⟩) ⟨⟨0, 0⟩, .R⟩ = some r' :=
    Robot.loop_mono (j + 6) _ _ _ r' hr' hfuel
  refine ⟨⟨r', hloop, hv, hl⟩, ?_⟩
  have hrun : (Robot.make (mRow h 1) ⟨⟨0, 0⟩, .R⟩).run
      = (Robot.loop (Robot.fuel (Robot.make (mRow h 1) ⟨⟨0, 0⟩, .R⟩))
          (Robot.make (mRow h 1) ⟨⟨0, 0⟩, .R⟩) ⟨⟨0, 0⟩, .R⟩).map
            (fun rr => rr.poses.length) := rfl
  rw [hrun, hloop]
  simp [hl]

/-- Witness for C6 at `h = 2`. -/
theorem claim_C6_witness :
    (∃ r', Robot.loop
          (Robot.fuel (Robot.make ⟨[['.', '.']], 2, 1, [⟨0, 0⟩]⟩ ⟨⟨0, 0⟩, .R⟩))
          (Robot.make ⟨[['.', '.']], 2, 1, [⟨0, 0⟩]⟩ ⟨⟨0, 0⟩, .R⟩)
          ⟨⟨0, 0⟩, .R⟩ = some r' ∧ r'.map.visited = sweep 2 ∧ r'.poses.length = 2)
    ∧ (Robot.make ⟨[['.', '.']], 2, 1, [⟨0, 0⟩]⟩ ⟨⟨0, 0⟩, .R⟩).run = some 2 :=
  claim_C6 2 ⟨[['.', '.']], 2, 1, [⟨0, 0⟩]⟩ (by decide) (by decide)

/-- C7: the pose history starts at length 1, grows by exactly one on `Empty`
transitions, is unchanged on `Visited` and `Blocked` transitions, never
shrinks across the loop, and `run()` returns its length at termination. -/
theorem claim_C7 :
    (∀ (m : Map) (pose : Pose), (Robot.make m pose).poses.length = 1)
    ∧ (∀ (r : Robot) (q : Position) (p : Pose),
        (r.move_to (.Empty q) p).1.poses.length = r.poses.length + 1)
    ∧ (∀ (r : Robot) (q : Position) (p : Pose),
        (r.move_to (.Visited q) p).1.poses.length = r.poses.length)
    ∧ (∀ (r : Robot) (p : Pose),
        (r.move_to .Blocked p).1.poses.length = r.poses.length)
    ∧ (∀ (n : Nat) (r : Robot) (pose : Pose) (r' : Robot),
        Robot.loop n r pose = some r' → r.poses.length ≤ r'.poses.length)
    ∧ (∀ (r : Robot) (pose : Pose) (rest : List Pose) (r' : Robot),
        r.poses = pose :: rest → Robot.loop (Robot.fuel r) r pose = some r' →
        r.run = some r'.poses.length) := by
  refine ⟨fun m pose => rfl, fun r q p => by simp [Robot.move_to], ?_, ?_,
          fun n => Robot.loop_length_mono n, ?_⟩
  · intro r q p
    by_cases hjv : r.just_visited = true
    · rw [Robot.move_to_visited_stop r q p hjv]
    · rw [Robot.move_to_visited_go r q p (by simpa using hjv)]
  · intro r p
    rw [Robot.move_to_blocked]
    split <;> rfl
  · intro r pose rest r' hp hl
    unfold Robot.run
    rw [hp]
    dsimp only
    rw [show Robot.loop r.fuel r pose = some r' from hl]
    rfl

/-- Witness for C7's conditional parts on the one-cell grid. -/
theorem claim_C7_witness :
    (⟨⟨[['.']], 1, 1, [⟨0, 0⟩]⟩, false, 0, [⟨⟨0, 0⟩, .R⟩]⟩ : Robot).poses.length
        ≤ (⟨⟨[['.']], 1, 1, [⟨0, 0⟩]⟩, false, 4, [⟨⟨0, 0⟩, .R⟩]⟩ : Robot).poses.length
    ∧ (⟨⟨[['.']], 1, 1, [⟨0, 0⟩]⟩, false, 0, [⟨⟨0, 0⟩, .R⟩]⟩ : Robot).run
        = some (⟨⟨[['.']], 1, 1, [⟨0, 0⟩]⟩, false, 4, [⟨⟨0, 0⟩, .R⟩]⟩ : Robot).poses.length :=
  ⟨claim_C7.2.2.2.2.1 40 ⟨⟨[['.']], 1, 1, [⟨0, 0⟩]⟩, false, 0, [⟨⟨0, 0⟩, .R⟩]⟩
      ⟨⟨0, 0⟩, .R⟩ ⟨⟨[['.']], 1, 1, [⟨0, 0⟩]⟩, false, 4, [⟨⟨0, 0⟩, .R⟩]⟩ (by decide),
   claim_C7.2.2.2.2.2 ⟨⟨[['.']], 1, 1, [⟨0, 0⟩]⟩, false, 0, [⟨⟨0, 0⟩, .R⟩]⟩
      ⟨⟨0, 0⟩, .R⟩ [] ⟨⟨[['.']], 1, 1, [⟨0, 0⟩]⟩, false, 4, [⟨⟨0, 0⟩, .R⟩]⟩ rfl (by decide)⟩

/-- C8: `rotate` follows the cycle R→D→L→U→R, has period 4, and never moves
the position. -/
theorem claim_C8 (pose : Pose) :
    pose.rotate.p = pose.p
    ∧ (pose.d = .R → pose.rotate.d = .D)
    ∧ (pose.d = .D → pose.rotate.d = .L)
    ∧ (pose.d = .L → pose.rotate.d = .U)
    ∧ (pose.d = .U → pose.rotate.d = .R)
    ∧ pose.rotate.rotate.rotate.rotate = pose := by
  obtain ⟨p, d⟩ := pose
  cases d <;> simp [Pose.rotate]

/-- Witness for C8 at a concrete pose heading Right. -/
theorem claim_C8_witness :
    (⟨⟨5, 7⟩, .R⟩ : Pose).rotate.p = ⟨5, 7⟩ ∧ (⟨⟨5, 7⟩, .R⟩ : Pose).rotate.d = .D :=
  ⟨(claim_C8 ⟨⟨5, 7⟩, .R⟩).1, (claim_C8 ⟨⟨5, 7⟩, .R⟩).2.1 rfl⟩

/-- C9 counterexample: malformed input is accepted, not rejected.  The layout
has unequal row lengths and a wall at the starting cell `(0,0)`, yet the
constructor yields a map and the robot runs to completion on it. -/
theorem claim_C9_counterexample :
    Map.ofLayout [['x'], ['.', '.']] = some ⟨[['x'], ['.', '.']], 1, 2, [⟨0, 0⟩]⟩
    ∧ Map.ofLayout [['x'], ['.', '.']] ≠ none
    ∧ runOn [['x'], ['.', '.']] ⟨⟨0, 0⟩, .R⟩ = some 2 := by
  refine ⟨rfl, by decide, ?_⟩
  decide

/-- C9 (amended): `Map` construction performs no validation — every nonempty
layout is accepted as-is, with `w` read off the first row, `h` the row count,
and the visited history seeded with `(0,0)`; only the empty layout (whose
`front()` the C++ cannot legally read) has no defined construction. -/
theorem claim_C9 (row : List Char) (rows : List (List Char)) :
    Map.ofLayout (row :: rows)
      = some ⟨row :: rows, (row.length : Int), ((row :: rows).length : Int), [⟨0, 0⟩]⟩
    ∧ Map.ofLayout ([] : Layout) = none :=
  ⟨rfl, rfl⟩

/-- C10: construction always seeds the visited history with exactly `(0,0)`,
so `(0,0)` classifies `Visited` immediately after construction, whatever the
grid holds there and wherever the robot will start. -/
theorem claim_C10 (g : Layout) (m : Map) (hm : Map.ofLayout g = some m) :
    m.visited = [⟨0, 0⟩] ∧ m.classify ⟨0, 0⟩ = .Visited ⟨0, 0⟩ := by
  have hvis : m.visited = [⟨0, 0⟩] := by
    cases g with
    | nil => simp [Map.ofLayout] at hm
    | cons row rows =>
        simp only [Map.ofLayout, Option.some.injEq] at hm
        rw [← hm]
  exact ⟨hvis, Map.classify_of_mem m ⟨0, 0⟩ (by rw [hvis]; exact List.mem_singleton_self _)⟩

/-- Witness for C10 on a grid whose `(0,0)` cell is a wall. -/
theorem claim_C10_witness :
    (⟨[['x', '.']], 2, 1, [⟨0, 0⟩]⟩ : Map).visited = [⟨0, 0⟩]
    ∧ (⟨[['x', '.']], 2, 1, [⟨0, 0⟩]⟩ : Map).classify ⟨0, 0⟩ = .Visited ⟨0, 0⟩ :=
  claim_C10 [['x', '.']] ⟨[['x', '.']], 2, 1, [⟨0, 0⟩]⟩ rfl
